import Mathlib

set_option autoImplicit false

/-!
Shallow embedding of src/lib/ws-reverse/server.ts (class Server).

The server keeps a Map from classification key to an insertion-ordered
array of listener callbacks, dispatches every parsed inbound frame to the
wildcard listeners and then to the listeners of the computed key, and
issues API calls by attaching one transient message handler per call to
the socket, filtering on a millisecond-timestamp echo token.

Listener callbacks are compared by identity in the source, so a callback
is modelled by a number; the body of a listener is modelled by whether it
raises when invoked. A received frame either parses to a JSON object or
is malformed; JSON.parse raising on a malformed frame is modelled by the
raised flag of the frame result.
-/

namespace WsReverse

/-- Identity of a registered listener callback. -/
abbrev Callback := Nat

/-- The fields of a parsed inbound JSON object that the server reads.
An absent field is none; JSON.parse never produces a present field whose
value is undefined, so Option faithfully models the in-operator presence
test of the source. The data payload is abstracted to a number. -/
structure OneBotEvent where
  post_type : Option String := none
  message_type : Option String := none
  request_type : Option String := none
  notice_type : Option String := none
  meta_event_type : Option String := none
  echo : Option String := none
  status : Option String := none
  message : Option String := none
  data : Nat := 0
  deriving DecidableEq, Repr

/-- JS template-literal stringification of a field that may be undefined:
an absent field prints as the text undefined. -/
def jsField : Option String → String
  | some s => s
  | none => "undefined"

/-- Server.getEventDetail: the first present field among message_type,
request_type, notice_type, meta_event_type, else the empty string. -/
def getEventDetail (e : OneBotEvent) : String :=
  match e.message_type with
  | some v => v
  | none =>
    match e.request_type with
    | some v => v
    | none =>
      match e.notice_type with
      | some v => v
      | none =>
        match e.meta_event_type with
        | some v => v
        | none => ""

/-- The classification key computed in the message handler of Server.init,
a template of post_type, a dot, and getEventDetail. -/
def eventKey (e : OneBotEvent) : String :=
  jsField e.post_type ++ "." ++ getEventDetail e

/-- The listeners field of Server: a JS Map from key to the callbacks
registered under it, modelled as an insertion-ordered association list. -/
abbrev Registry := List (String × List Callback)

/-- Map.get on the listeners map. -/
def mapGet : Registry → String → Option (List Callback)
  | [], _ => none
  | kv :: rest, k => if kv.1 = k then some kv.2 else mapGet rest k

/-- Push a callback at the end of the array stored under a key. -/
def pushToKey : Registry → String → Callback → Registry
  | [], _, _ => []
  | kv :: rest, k, c =>
    if kv.1 = k then (kv.1, kv.2 ++ [c]) :: rest else kv :: pushToKey rest k c

/-- Server.on: the key is the given classification key, or the star key
for the wildcard overload; when the key is absent it is first created
with an empty array, then the callback is pushed at its end. -/
def onEvent (reg : Registry) (key : String) (c : Callback) : Registry :=
  if (mapGet reg key).isSome then pushToKey reg key c
  else pushToKey (reg ++ [(key, [])]) key c

/-- Splice of the first occurrence of a callback, as indexOf followed by
splice of one element. -/
def removeFirst (c : Callback) : List Callback → List Callback
  | [] => []
  | x :: xs => if x = c then xs else x :: removeFirst c xs

/-- Server.off: for each entry of the map, when indexOf finds the
callback, its first occurrence is spliced out, and the key is deleted
when the array becomes empty; entries without the callback are kept. -/
def off (c : Callback) (reg : Registry) : Registry :=
  reg.filterMap fun kv =>
    if c ∈ kv.2 then
      if removeFirst c kv.2 = [] then none
      else some (kv.1, removeFirst c kv.2)
    else some kv

/-- A pending call: the transient per-call message handler attached by
Server.callApi, identified by the call it completes and filtering on the
echo token of that call. -/
structure PendingCall where
  echo : String
  callId : Nat
  deriving DecidableEq, Repr

/-- One observable action performed while handling an inbound frame. -/
inductive Step where
  | invoke (c : Callback)
  | resolveCall (callId : Nat) (data : Nat)
  | rejectCall (callId : Nat) (msg : String)
  deriving DecidableEq, Repr

/-- Run the listener loop of the message handler: listeners are invoked
in order; a listener that raises stops the loop and the exception escapes,
since the source has no try-catch around the loop. Returns the invoked
listeners and whether the loop raised. -/
def runListeners (raises : Callback → Bool) : List Callback → List Callback × Bool
  | [] => ([], false)
  | c :: cs =>
    if raises c then ([c], true)
    else
      let r := runListeners raises cs
      (c :: r.1, r.2)

/-- JS short-circuit or over a possibly-absent string, as in the source
expression for the rejection message: an absent or empty string is falsy
and yields the default. -/
def jsOr (m : Option String) (d : String) : String :=
  match m with
  | some s => if s = "" then d else s
  | none => d

/-- Settlement performed by a matching per-call handler: resolve with the
data field on ok status, otherwise reject with the message field or the
default text. -/
def settleStep (p : PendingCall) (e : OneBotEvent) : Step :=
  if e.status = some "ok" then .resolveCall p.callId e.data
  else .rejectCall p.callId (jsOr e.message "API call failed")

/-- Run the per-call handlers attached by callApi against a parsed frame,
in attachment order: each handler whose echo matches detaches itself and
settles its call; non-matching handlers stay attached. -/
def runPending (e : OneBotEvent) : List PendingCall → List Step × List PendingCall
  | [] => ([], [])
  | p :: ps =>
    let r := runPending e ps
    if e.echo = some p.echo then
      (settleStep p e :: r.1, r.2)
    else
      (r.1, p :: r.2)

/-- State of the single live connection: the listener registry and the
per-call handlers currently attached to the socket. -/
structure Conn where
  registry : Registry
  pending : List PendingCall
  deriving DecidableEq, Repr

/-- Result of handling one received frame: the actions performed, the
per-call handlers still attached afterwards, and whether an exception
escaped the handlers. -/
structure FrameResult where
  steps : List Step
  pending : List PendingCall
  raised : Bool
  deriving DecidableEq, Repr

/-- Handling of one received frame. A frame either parses to an object or
is malformed (none). The message handlers attached to the socket run in
attachment order: first the dispatch handler installed by Server.init,
which runs the wildcard listeners and then the listeners of the computed
key, then one handler per pending call. JSON.parse throwing on a
malformed frame, or a listener throwing, aborts the remaining work of the
frame and the exception escapes uncaught. -/
def processFrame (raises : Callback → Bool) (conn : Conn)
    (frame : Option OneBotEvent) : FrameResult :=
  match frame with
  | none => ⟨[], conn.pending, true⟩
  | some e =>
    let rw := runListeners raises ((mapGet conn.registry "*").getD [])
    if rw.2 then ⟨rw.1.map Step.invoke, conn.pending, true⟩
    else
      let rt := runListeners raises ((mapGet conn.registry (eventKey e)).getD [])
      if rt.2 then ⟨(rw.1 ++ rt.1).map Step.invoke, conn.pending, true⟩
      else
        let rp := runPending e conn.pending
        ⟨(rw.1 ++ rt.1).map Step.invoke ++ rp.1, rp.2, false⟩

/-- The echo token of Server.callApi: Date.now rendered as a string. -/
def genEcho (now : Nat) : String := toString now

/-- The outbound payload of Server.callApi. -/
structure Payload where
  action : String
  params : List (String × String)
  echo : String
  deriving DecidableEq, Repr

/-- Immediate outcome of Server.callApi: either an at-once rejection with
no payload sent, or a sent payload plus an attached per-call handler. -/
inductive CallStart where
  | noConnection (errMsg : String)
  | started (sent : Payload) (pc : PendingCall)
  deriving DecidableEq, Repr

/-- Server.callApi: the echo is computed from the current time; when the
client set is empty the promise rejects at once and nothing is sent;
otherwise the per-call handler is attached and the payload is sent. -/
def callApi (clientCount : Nat) (now : Nat) (callId : Nat)
    (action : String) (params : List (String × String)) : CallStart :=
  let echo := genEcho now
  if clientCount = 0 then .noConnection "No WebSocket clients connected"
  else .started ⟨action, params, echo⟩ ⟨echo, callId⟩

/-- The payload sent over the channel by a call start, if any. -/
def sentPayload : CallStart → Option Payload
  | .noConnection _ => none
  | .started p _ => some p

/-- Issuing a call on the connection: on success the per-call handler is
attached after the handlers already present. -/
def issueCall (conn : Conn) (clientCount now callId : Nat)
    (action : String) (params : List (String × String)) : Conn × CallStart :=
  match callApi clientCount now callId action params with
  | .noConnection m => (conn, .noConnection m)
  | .started pl pc => (⟨conn.registry, conn.pending ++ [pc]⟩, .started pl pc)

/-- The listener invocations among the actions of a frame. -/
def invokedOf : List Step → List Callback
  | [] => []
  | .invoke c :: ss => c :: invokedOf ss
  | _ :: ss => invokedOf ss

/-- The call resolutions among the actions of a frame. -/
def resolvedOf : List Step → List (Nat × Nat)
  | [] => []
  | .resolveCall i d :: ss => (i, d) :: resolvedOf ss
  | _ :: ss => resolvedOf ss

/-- The call rejections among the actions of a frame. -/
def rejectedOf : List Step → List (Nat × String)
  | [] => []
  | .rejectCall i m :: ss => (i, m) :: rejectedOf ss
  | _ :: ss => rejectedOf ss

/-! Decimal rendering of Nat, needed to reason about the echo tokens that
Server.callApi derives from Date.now with toString. -/

/-- Decimal digit characters of a number, most significant first. -/
def decRepr (n : Nat) : List Char :=
  if _h : n < 10 then [Nat.digitChar n]
  else decRepr (n / 10) ++ [Nat.digitChar (n % 10)]
decreasing_by exact Nat.div_lt_self (by omega) (by omega)

/-- Numeric value of a digit character list, most significant first. -/
def decVal (l : List Char) : Nat :=
  l.foldl (fun a c => a * 10 + (c.toNat - 48)) 0

theorem digitChar_val (d : Nat) (h : d < 10) : (Nat.digitChar d).toNat - 48 = d := by
  interval_cases d <;> rfl

theorem decVal_append (l : List Char) (c : Char) :
    decVal (l ++ [c]) = decVal l * 10 + (c.toNat - 48) := by
  simp [decVal, List.foldl_append]

theorem decVal_decRepr (n : Nat) : decVal (decRepr n) = n := by
  induction n using Nat.strong_induction_on with
  | _ n ih =>
    rw [decRepr]
    split
    · next h => simp [decVal, digitChar_val n h]
    · next h =>
      rw [decVal_append, ih (n / 10) (Nat.div_lt_self (by omega) (by omega)),
        digitChar_val (n % 10) (Nat.mod_lt n (by omega))]
      omega

theorem toDigitsCore_eq_decRepr (f : Nat) : ∀ (n : Nat) (acc : List Char), n < f →
    Nat.toDigitsCore 10 f n acc = decRepr n ++ acc := by
  induction f with
  | zero => intro n acc h; omega
  | succ f ih =>
    intro n acc h
    show (if n / 10 = 0 then Nat.digitChar (n % 10) :: acc
      else Nat.toDigitsCore 10 f (n / 10) (Nat.digitChar (n % 10) :: acc)) = decRepr n ++ acc
    by_cases h10 : n / 10 = 0
    · have hn : n < 10 := by omega
      have hmod : n % 10 = n := Nat.mod_eq_of_lt hn
      rw [if_pos h10, decRepr, dif_pos hn, hmod]
      rfl
    · have hn : ¬ n < 10 := by omega
      rw [if_neg h10, ih (n / 10) _ (by omega)]
      conv_rhs => rw [decRepr]
      rw [dif_neg hn, List.append_assoc]
      rfl

theorem repr_eq_decRepr (n : Nat) : Nat.repr n = (decRepr n).asString := by
  show (Nat.toDigitsCore 10 (n + 1) n []).asString = (decRepr n).asString
  rw [toDigitsCore_eq_decRepr (n + 1) n [] (by omega), List.append_nil]

theorem decRepr_injective : Function.Injective decRepr := by
  intro a b hab
  have := congrArg decVal hab
  rwa [decVal_decRepr, decVal_decRepr] at this

theorem genEcho_injective : Function.Injective genEcho := by
  intro a b hab
  apply decRepr_injective
  have ha : genEcho a = (decRepr a).asString := repr_eq_decRepr a
  have hb : genEcho b = (decRepr b).asString := repr_eq_decRepr b
  rw [ha, hb] at hab
  exact congrArg String.data hab

/-! Small laws of the step extractors and the handler loops. -/

@[simp] theorem invokedOf_nil : invokedOf [] = [] := rfl

@[simp] theorem invokedOf_invoke (c : Callback) (ss : List Step) :
    invokedOf (Step.invoke c :: ss) = c :: invokedOf ss := rfl

@[simp] theorem invokedOf_resolve (i d : Nat) (ss : List Step) :
    invokedOf (Step.resolveCall i d :: ss) = invokedOf ss := rfl

@[simp] theorem invokedOf_reject (i : Nat) (m : String) (ss : List Step) :
    invokedOf (Step.rejectCall i m :: ss) = invokedOf ss := rfl

@[simp] theorem invokedOf_append (s t : List Step) :
    invokedOf (s ++ t) = invokedOf s ++ invokedOf t := by
  induction s with
  | nil => rfl
  | cons a s ih => cases a <;> simp [ih]

@[simp] theorem invokedOf_map_invoke (l : List Callback) :
    invokedOf (l.map Step.invoke) = l := by
  induction l with
  | nil => rfl
  | cons a l ih => simp [ih]

@[simp] theorem resolvedOf_nil : resolvedOf [] = [] := rfl

@[simp] theorem resolvedOf_invoke (c : Callback) (ss : List Step) :
    resolvedOf (Step.invoke c :: ss) = resolvedOf ss := rfl

@[simp] theorem resolvedOf_resolve (i d : Nat) (ss : List Step) :
    resolvedOf (Step.resolveCall i d :: ss) = (i, d) :: resolvedOf ss := rfl

@[simp] theorem resolvedOf_reject (i : Nat) (m : String) (ss : List Step) :
    resolvedOf (Step.rejectCall i m :: ss) = resolvedOf ss := rfl

@[simp] theorem resolvedOf_append (s t : List Step) :
    resolvedOf (s ++ t) = resolvedOf s ++ resolvedOf t := by
  induction s with
  | nil => rfl
  | cons a s ih => cases a <;> simp [ih]

@[simp] theorem resolvedOf_map_invoke (l : List Callback) :
    resolvedOf (l.map Step.invoke) = [] := by
  induction l with
  | nil => rfl
  | cons a l ih => simp [ih]

@[simp] theorem rejectedOf_nil : rejectedOf [] = [] := rfl

@[simp] theorem rejectedOf_invoke (c : Callback) (ss : List Step) :
    rejectedOf (Step.invoke c :: ss) = rejectedOf ss := rfl

@[simp] theorem rejectedOf_resolve (i d : Nat) (ss : List Step) :
    rejectedOf (Step.resolveCall i d :: ss) = rejectedOf ss := rfl

@[simp] theorem rejectedOf_reject (i : Nat) (m : String) (ss : List Step) :
    rejectedOf (Step.rejectCall i m :: ss) = (i, m) :: rejectedOf ss := rfl

@[simp] theorem rejectedOf_append (s t : List Step) :
    rejectedOf (s ++ t) = rejectedOf s ++ rejectedOf t := by
  induction s with
  | nil => rfl
  | cons a s ih => cases a <;> simp [ih]

@[simp] theorem rejectedOf_map_invoke (l : List Callback) :
    rejectedOf (l.map Step.invoke) = [] := by
  induction l with
  | nil => rfl
  | cons a l ih => simp [ih]

theorem runListeners_no_raise (raises : Callback → Bool) (ls : List Callback)
    (h : ∀ c ∈ ls, raises c = false) : runListeners raises ls = (ls, false) := by
  induction ls with
  | nil => rfl
  | cons c cs ih =>
    have hc : raises c = false := h c (List.mem_cons_self c cs)
    have ih2 := ih fun x hx => h x (List.mem_cons_of_mem c hx)
    simp [runListeners, hc, ih2]

theorem runListeners_subset (raises : Callback → Bool) (ls : List Callback) (x : Callback)
    (hx : x ∈ (runListeners raises ls).1) : x ∈ ls := by
  induction ls with
  | nil => simp [runListeners] at hx
  | cons c cs ih =>
    simp only [runListeners] at hx
    by_cases hc : raises c
    · rw [if_pos hc] at hx
      simp only [List.mem_singleton] at hx
      simp [hx]
    · rw [if_neg hc] at hx
      simp only [List.mem_cons] at hx
      rcases hx with rfl | hx
      · exact List.mem_cons_self _ _
      · exact List.mem_cons_of_mem _ (ih hx)

theorem invokedOf_runPending (e : OneBotEvent) (ps : List PendingCall) :
    invokedOf (runPending e ps).1 = [] := by
  induction ps with
  | nil => rfl
  | cons p ps ih =>
    simp only [runPending]
    by_cases hm : e.echo = some p.echo
    · rw [if_pos hm]
      by_cases hs : e.status = some "ok" <;> simp [settleStep, hs, ih]
    · rw [if_neg hm]
      exact ih

theorem settleStep_mem_runPending (e : OneBotEvent) (ps : List PendingCall)
    (p : PendingCall) (hp : p ∈ ps) (he : e.echo = some p.echo) :
    settleStep p e ∈ (runPending e ps).1 := by
  induction ps with
  | nil => cases hp
  | cons q qs ih =>
    simp only [runPending]
    rcases List.mem_cons.mp hp with rfl | hp2
    · rw [if_pos he]
      exact List.mem_cons_self _ _
    · by_cases hm : e.echo = some q.echo
      · rw [if_pos hm]
        exact List.mem_cons_of_mem _ (ih hp2)
      · rw [if_neg hm]
        exact ih hp2

theorem processFrame_no_raise (raises : Callback → Bool) (conn : Conn) (e : OneBotEvent)
    (hq : ∀ c, raises c = false) :
    processFrame raises conn (some e) =
      ⟨(((mapGet conn.registry "*").getD []) ++
          ((mapGet conn.registry (eventKey e)).getD [])).map Step.invoke ++
          (runPending e conn.pending).1,
        (runPending e conn.pending).2, false⟩ := by
  simp only [processFrame,
    runListeners_no_raise raises _ (fun c _ => hq c)]
  simp

theorem runListeners_raise (raises : Callback → Bool) (pre post : List Callback)
    (c : Callback) (hpre : ∀ x ∈ pre, raises x = false) (hc : raises c = true) :
    runListeners raises (pre ++ c :: post) = (pre ++ [c], true) := by
  induction pre with
  | nil => simp [runListeners, hc]
  | cons a l ih =>
    have ha : raises a = false := hpre a (List.mem_cons_self a l)
    have ih2 := ih fun x hx => hpre x (List.mem_cons_of_mem a hx)
    simp [runListeners, ha, ih2]

/-- Claim C1, counterexample: an inbound message whose echo matches the
pending call is settled by the per-call handler, yet the wildcard
listener 7 is invoked on it all the same, because the dispatch handler of
Server.init runs on every parsed frame without consulting the pending
set. -/
theorem response_dispatched_to_listener_cx :
    resolvedOf (processFrame (fun _ => false) ⟨[("*", [7])], [⟨"1", 0⟩]⟩
      (some { echo := some "1", status := some "ok", data := 5 })).steps = [(0, 5)] ∧
    invokedOf (processFrame (fun _ => false) ⟨[("*", [7])], [⟨"1", 0⟩]⟩
      (some { echo := some "1", status := some "ok", data := 5 })).steps = [7] := by
  decide

/-- Claim C1, amended: an inbound call response is settled by the
matching per-call handler, and it is also delivered to the event
listeners, wildcard and key-specific alike, since the dispatch handler
runs on every parsed frame regardless of its echo. -/
theorem response_also_dispatched (raises : Callback → Bool) (conn : Conn)
    (e : OneBotEvent) (p : PendingCall) (hp : p ∈ conn.pending)
    (he : e.echo = some p.echo) (hq : ∀ c, raises c = false) :
    settleStep p e ∈ (processFrame raises conn (some e)).steps ∧
    invokedOf (processFrame raises conn (some e)).steps =
      ((mapGet conn.registry "*").getD []) ++
      ((mapGet conn.registry (eventKey e)).getD []) := by
  rw [processFrame_no_raise raises conn e hq]
  constructor
  · exact List.mem_append_right _ (settleStep_mem_runPending e conn.pending p hp he)
  · simp [invokedOf_runPending]

theorem response_also_dispatched_witness :
    (⟨"1", 0⟩ : PendingCall) ∈ ([⟨"1", 0⟩] : List PendingCall) ∧
    settleStep ⟨"1", 0⟩ { echo := some "1", status := some "ok", data := 5 } ∈
      (processFrame (fun _ => false) ⟨[("*", [7])], [⟨"1", 0⟩]⟩
        (some { echo := some "1", status := some "ok", data := 5 })).steps :=
  ⟨by decide,
    (response_also_dispatched (fun _ => false) ⟨[("*", [7])], [⟨"1", 0⟩]⟩
      { echo := some "1", status := some "ok", data := 5 } ⟨"1", 0⟩
      (by decide) (by decide) (fun _ => rfl)).1⟩

/-- Claim C2, counterexample: with wildcard listeners 1 and 2 registered
in that order and listener 1 raising, listener 2 is never invoked and the
exception escapes the message handler, since the dispatch loop has no
try-catch. -/
theorem listener_raise_stops_dispatch_cx :
    processFrame (fun c => c == 1) ⟨[("*", [1, 2])], []⟩ (some {}) =
      ⟨[Step.invoke 1], [], true⟩ := by
  decide

/-- Claim C2, amended: a listener that raises stops dispatch of the
message: the listeners registered after it are not invoked, the per-call
handlers do not run for that message, and the exception escapes the
handler uncaught; the pending set is left as it was. -/
theorem listener_raise_stops_dispatch (raises : Callback → Bool) (conn : Conn)
    (e : OneBotEvent) (pre post : List Callback) (c : Callback)
    (hw : (mapGet conn.registry "*").getD [] = pre ++ c :: post)
    (hpre : ∀ x ∈ pre, raises x = false) (hc : raises c = true) :
    processFrame raises conn (some e) =
      ⟨(pre ++ [c]).map Step.invoke, conn.pending, true⟩ := by
  simp only [processFrame, hw, runListeners_raise raises pre post c hpre hc]
  simp

theorem listener_raise_stops_dispatch_witness :
    (mapGet ([("*", [1, 2])] : Registry) "*").getD [] = [] ++ 1 :: [2] ∧
    processFrame (fun c => c == 1) ⟨[("*", [1, 2])], [⟨"9", 4⟩]⟩ (some {}) =
      ⟨([] ++ [1]).map Step.invoke, [⟨"9", 4⟩], true⟩ :=
  ⟨by decide,
    listener_raise_stops_dispatch (fun c => c == 1) ⟨[("*", [1, 2])], [⟨"9", 4⟩]⟩
      {} [] [2] 1 (by decide) (by decide) (by decide)⟩

/-- Claim C3, counterexample: two calls issued while the same millisecond
timestamp is current both receive the echo token 5, so the tokens of the
two pending calls coincide instead of being pairwise distinct. -/
theorem echo_collision_cx :
    ((issueCall (issueCall ⟨[], []⟩ 1 5 0 "a" []).1 1 5 1 "b" []).1.pending.map
      PendingCall.echo) = ["5", "5"] ∧
    ¬ ((issueCall (issueCall ⟨[], []⟩ 1 5 0 "a" []).1 1 5 1 "b" []).1.pending.map
      PendingCall.echo).Nodup := by
  decide

/-- Claim C3, amended: the correlation token of a call is the decimal
rendering of its issuance timestamp, so the tokens of two calls are
distinct exactly when their issuance timestamps are distinct; two calls
issued within the same millisecond receive equal tokens. -/
theorem echo_distinct_iff_timestamp (conn : Conn) (n1 n2 t1 t2 cid1 cid2 : Nat)
    (a1 a2 : String) (p1 p2 : List (String × String))
    (h1 : 0 < n1) (h2 : 0 < n2) :
    (issueCall (issueCall conn n1 t1 cid1 a1 p1).1 n2 t2 cid2 a2 p2).1.pending =
      conn.pending ++ [⟨genEcho t1, cid1⟩, ⟨genEcho t2, cid2⟩] ∧
    (genEcho t1 = genEcho t2 ↔ t1 = t2) := by
  constructor
  · have hn1 : n1 ≠ 0 := by omega
    have hn2 : n2 ≠ 0 := by omega
    simp [issueCall, callApi, hn1, hn2]
  · exact ⟨fun h => genEcho_injective h, fun h => by rw [h]⟩

theorem echo_distinct_iff_timestamp_witness :
    0 < 1 ∧
    ((issueCall (issueCall ⟨[], []⟩ 1 3 0 "a" []).1 1 4 1 "b" []).1.pending =
      [] ++ [⟨genEcho 3, 0⟩, ⟨genEcho 4, 1⟩] ∧
    (genEcho 3 = genEcho 4 ↔ 3 = 4)) :=
  ⟨by decide,
    echo_distinct_iff_timestamp ⟨[], []⟩ 1 1 3 4 0 1 "a" "b" [] []
      (by decide) (by decide)⟩

/-- Claim C4: a call issued while no client is connected rejects at once
with the no-connection error and sends nothing over the channel, leaving
the pending set unchanged. -/
theorem no_connection_rejects_and_sends_nothing (conn : Conn) (now callId : Nat)
    (action : String) (params : List (String × String)) :
    callApi 0 now callId action params =
      .noConnection "No WebSocket clients connected" ∧
    sentPayload (callApi 0 now callId action params) = none ∧
    issueCall conn 0 now callId action params =
      (conn, .noConnection "No WebSocket clients connected") :=
  ⟨rfl, rfl, rfl⟩

/-- Claim C9, counterexample: a malformed frame makes JSON.parse throw
inside the message handler, so handling the frame raises instead of
logging and dropping it. -/
theorem malformed_frame_raises_cx :
    processFrame (fun _ => false) ⟨[("*", [4])], [⟨"1", 9⟩]⟩ none =
      ⟨[], [⟨"1", 9⟩], true⟩ := by
  decide

/-- Claim C9, amended: a frame that is not valid JSON makes JSON.parse
throw in the message handler: no listener is invoked, no call is settled,
the pending set is untouched, and the exception escapes the handler
uncaught rather than being logged and dropped. -/
theorem malformed_frame_behavior (raises : Callback → Bool) (conn : Conn) :
    processFrame raises conn none = ⟨[], conn.pending, true⟩ := rfl

/-- Claim C10: the secondary discriminator is chosen by the fixed
precedence message_type, then request_type, then notice_type, then
meta_event_type, and is the empty string when none of the four fields is
present. -/
theorem detail_precedence (e : OneBotEvent) :
    (∀ m, e.message_type = some m → getEventDetail e = m) ∧
    (e.message_type = none → ∀ r, e.request_type = some r → getEventDetail e = r) ∧
    (e.message_type = none → e.request_type = none →
      ∀ n, e.notice_type = some n → getEventDetail e = n) ∧
    (e.message_type = none → e.request_type = none → e.notice_type = none →
      ∀ m, e.meta_event_type = some m → getEventDetail e = m) ∧
    (e.message_type = none → e.request_type = none → e.notice_type = none →
      e.meta_event_type = none → getEventDetail e = "") := by
  refine ⟨?_, ?_, ?_, ?_, ?_⟩
  · intro m hm; simp [getEventDetail, hm]
  · intro h1 r hr; simp [getEventDetail, h1, hr]
  · intro h1 h2 n hn; simp [getEventDetail, h1, h2, hn]
  · intro h1 h2 h3 m hm; simp [getEventDetail, h1, h2, h3, hm]
  · intro h1 h2 h3 h4; simp [getEventDetail, h1, h2, h3, h4]

theorem detail_precedence_witness :
    ({ post_type := some "message", message_type := some "private",
       notice_type := some "poke" } : OneBotEvent).message_type = some "private" ∧
    getEventDetail ({ post_type := some "message", message_type := some "private",
                      notice_type := some "poke" } : OneBotEvent) = "private" :=
  ⟨rfl,
    (detail_precedence ({ post_type := some "message", message_type := some "private",
                          notice_type := some "poke" } : OneBotEvent)).1 "private" rfl⟩

theorem not_mem_removeFirst (c : Callback) (ls : List Callback)
    (h : List.count c ls ≤ 1) : c ∉ removeFirst c ls := by
  induction ls with
  | nil => simp [removeFirst]
  | cons x xs ih =>
    simp only [removeFirst]
    by_cases hx : x = c
    · subst hx
      rw [if_pos rfl]
      have hcount : List.count x xs = 0 := by
        have hcs := List.count_cons_self x xs
        omega
      exact List.count_eq_zero.mp hcount
    · rw [if_neg hx]
      intro hmem
      rcases List.mem_cons.mp hmem with hcx | hmem2
      · exact hx hcx.symm
      · have hcc : List.count c (x :: xs) = List.count c xs :=
          List.count_cons_of_ne (fun hh => hx hh.symm) xs
        exact ih (by omega) hmem2

theorem not_mem_of_mem_off (c : Callback) (reg : Registry)
    (hcount : ∀ kv ∈ reg, List.count c kv.2 ≤ 1)
    (kv : String × List Callback) (hkv : kv ∈ off c reg) : c ∉ kv.2 := by
  rcases List.mem_filterMap.mp hkv with ⟨a, ha, hfa⟩
  by_cases hc : c ∈ a.2
  · rw [if_pos hc] at hfa
    by_cases hrem : removeFirst c a.2 = []
    · rw [if_pos hrem] at hfa
      cases hfa
    · rw [if_neg hrem] at hfa
      injection hfa with h2
      rw [← h2]
      exact not_mem_removeFirst c a.2 (hcount a ha)
  · rw [if_neg hc] at hfa
    injection hfa with h2
    rw [← h2]
    exact hc

theorem off_key_mem (c : Callback) (reg : Registry) (kv : String × List Callback)
    (hkv : kv ∈ off c reg) : kv.1 ∈ reg.map Prod.fst := by
  rcases List.mem_filterMap.mp hkv with ⟨a, ha, hfa⟩
  have hk : kv.1 = a.1 := by
    by_cases hc : c ∈ a.2
    · rw [if_pos hc] at hfa
      by_cases hrem : removeFirst c a.2 = []
      · rw [if_pos hrem] at hfa; cases hfa
      · rw [if_neg hrem] at hfa
        injection hfa with h2
        rw [← h2]
    · rw [if_neg hc] at hfa
      injection hfa with h2
      rw [← h2]
  rw [hk]
  exact List.mem_map_of_mem Prod.fst ha

theorem mapGet_mem (reg : Registry) (k : String) (ls : List Callback)
    (h : mapGet reg k = some ls) : (k, ls) ∈ reg := by
  induction reg with
  | nil => cases h
  | cons kv rest ih =>
    obtain ⟨k1, l1⟩ := kv
    simp only [mapGet] at h
    by_cases hk : k1 = k
    · rw [if_pos hk] at h
      injection h with h2
      rw [← hk, ← h2]
      exact List.mem_cons_self _ _
    · rw [if_neg hk] at h
      exact List.mem_cons_of_mem _ (ih h)

theorem mapGet_eq_none (reg : Registry) (k : String)
    (h : k ∉ reg.map Prod.fst) : mapGet reg k = none := by
  induction reg with
  | nil => rfl
  | cons kv rest ih =>
    simp only [List.map_cons, List.mem_cons, not_or] at h
    simp only [mapGet]
    rw [if_neg (fun hh => h.1 hh.symm)]
    exact ih h.2

theorem not_mem_getD_off (c : Callback) (reg : Registry)
    (hcount : ∀ kv ∈ reg, List.count c kv.2 ≤ 1) (k : String) :
    c ∉ (mapGet (off c reg) k).getD [] := by
  cases hm : mapGet (off c reg) k with
  | none => simp
  | some ls =>
    simp only [Option.getD_some]
    exact not_mem_of_mem_off c reg hcount (k, ls) (mapGet_mem _ _ _ hm)

theorem off_cons (c : Callback) (k1 : String) (l1 : List Callback) (rest : Registry) :
    off c ((k1, l1) :: rest) =
      if c ∈ l1 then
        (if removeFirst c l1 = [] then off c rest
         else (k1, removeFirst c l1) :: off c rest)
      else (k1, l1) :: off c rest := by
  by_cases hc : c ∈ l1
  · by_cases hrem : removeFirst c l1 = []
    · rw [if_pos hc, if_pos hrem]
      simp [off, List.filterMap_cons, hc, hrem]
    · rw [if_pos hc, if_neg hrem]
      simp [off, List.filterMap_cons, hc, hrem]
  · rw [if_neg hc]
    simp [off, List.filterMap_cons, hc]

theorem mapGet_off_deleted (c : Callback) (reg : Registry)
    (hkeys : (reg.map Prod.fst).Nodup) (k : String)
    (h : mapGet reg k = some [c]) : mapGet (off c reg) k = none := by
  induction reg with
  | nil => cases h
  | cons kv rest ih =>
    obtain ⟨k1, l1⟩ := kv
    simp only [List.map_cons, List.nodup_cons] at hkeys
    simp only [mapGet] at h
    rw [off_cons]
    by_cases hk : k1 = k
    · rw [if_pos hk] at h
      injection h with h2
      subst h2
      rw [if_pos (List.mem_singleton.mpr rfl)]
      have hrem : removeFirst c [c] = [] := by simp [removeFirst]
      rw [if_pos hrem]
      apply mapGet_eq_none
      intro hmem
      rcases List.mem_map.mp hmem with ⟨kv2, hkv2, hfst⟩
      have hmem2 : kv2.1 ∈ rest.map Prod.fst := off_key_mem c rest kv2 hkv2
      rw [hfst] at hmem2
      exact (hk ▸ hkeys.1) hmem2
    · rw [if_neg hk] at h
      have tail : mapGet (off c rest) k = none := ih hkeys.2 h
      by_cases hc : c ∈ l1
      · rw [if_pos hc]
        by_cases hrem : removeFirst c l1 = []
        · rw [if_pos hrem]
          exact tail
        · rw [if_neg hrem]
          simp only [mapGet]
          rw [if_neg hk]
          exact tail
      · rw [if_neg hc]
        simp only [mapGet]
        rw [if_neg hk]
        exact tail

theorem invokedOf_processFrame_subset (raises : Callback → Bool) (conn : Conn)
    (frame : Option OneBotEvent) (x : Callback)
    (hx : x ∈ invokedOf (processFrame raises conn frame).steps) :
    ∃ k, x ∈ (mapGet conn.registry k).getD [] := by
  cases frame with
  | none => simp [processFrame] at hx
  | some e =>
    simp only [processFrame] at hx
    split at hx
    · simp only [invokedOf_map_invoke] at hx
      exact ⟨"*", runListeners_subset raises _ x hx⟩
    · split at hx
      · simp only [invokedOf_map_invoke, List.mem_append] at hx
        rcases hx with hx | hx
        · exact ⟨"*", runListeners_subset raises _ x hx⟩
        · exact ⟨eventKey e, runListeners_subset raises _ x hx⟩
      · simp only [invokedOf_append, invokedOf_map_invoke, invokedOf_runPending,
          List.append_nil, List.mem_append] at hx
        rcases hx with hx | hx
        · exact ⟨"*", runListeners_subset raises _ x hx⟩
        · exact ⟨eventKey e, runListeners_subset raises _ x hx⟩

/-- Claim C8, counterexample: a callback registered twice under the same
key survives a single off, which splices only the first occurrence found
by indexOf; the surviving occurrence is still invoked by dispatch
afterwards. -/
theorem off_duplicate_registration_cx :
    off 5 (onEvent (onEvent [] "*" 5) "*" 5) = [("*", [5])] ∧
    invokedOf (processFrame (fun _ => false)
      ⟨off 5 (onEvent (onEvent [] "*" 5) "*" 5), []⟩ (some {})).steps = [5] := by
  decide

/-- Claim C8, amended: a single off removes the first occurrence of the
callback from the sequence of every key it appears in and deletes any key
whose sequence becomes empty; provided the callback was registered at
most once per key, it no longer appears under any key afterwards and no
message dispatch invokes it. -/
theorem off_removes_callback (c : Callback) (reg : Registry)
    (hcount : ∀ kv ∈ reg, List.count c kv.2 ≤ 1)
    (hkeys : (reg.map Prod.fst).Nodup) :
    (∀ kv ∈ off c reg, c ∉ kv.2) ∧
    (∀ k, mapGet reg k = some [c] → mapGet (off c reg) k = none) ∧
    (∀ (raises : Callback → Bool) (pending : List PendingCall)
      (frame : Option OneBotEvent),
      c ∉ invokedOf (processFrame raises ⟨off c reg, pending⟩ frame).steps) := by
  refine ⟨fun kv hkv => not_mem_of_mem_off c reg hcount kv hkv,
    fun k hk => mapGet_off_deleted c reg hkeys k hk, ?_⟩
  intro raises pending frame hmem
  rcases invokedOf_processFrame_subset raises ⟨off c reg, pending⟩ frame c hmem with ⟨k, hk⟩
  exact not_mem_getD_off c reg hcount k hk

theorem off_removes_callback_witness :
    (5 : Callback) ∉ invokedOf (processFrame (fun _ => false)
      ⟨off 5 [("*", [5]), ("message.private", [5, 6])], []⟩
      (some { post_type := some "message", message_type := some "private" })).steps :=
  (off_removes_callback 5 [("*", [5]), ("message.private", [5, 6])]
    (by decide) (by decide)).2.2 (fun _ => false) []
    (some { post_type := some "message", message_type := some "private" })

/-- Claim C5: two calls pending on one connection with distinct tokens,
whose responses arrive in the opposite order, each resolve with the data
of the response carrying their own token: the response for the second
call settles only the second call and leaves the first pending, and the
response for the first call then settles the first. -/
theorem out_of_order_responses_matched (raises : Callback → Bool) (reg : Registry)
    (e1 e2 : String) (id1 id2 d1 d2 : Nat) (hne : e1 ≠ e2)
    (hq : ∀ c, raises c = false) :
    resolvedOf (processFrame raises ⟨reg, [⟨e1, id1⟩, ⟨e2, id2⟩]⟩
      (some { echo := some e2, status := some "ok", data := d2 })).steps = [(id2, d2)] ∧
    rejectedOf (processFrame raises ⟨reg, [⟨e1, id1⟩, ⟨e2, id2⟩]⟩
      (some { echo := some e2, status := some "ok", data := d2 })).steps = [] ∧
    (processFrame raises ⟨reg, [⟨e1, id1⟩, ⟨e2, id2⟩]⟩
      (some { echo := some e2, status := some "ok", data := d2 })).pending = [⟨e1, id1⟩] ∧
    resolvedOf (processFrame raises ⟨reg, [⟨e1, id1⟩]⟩
      (some { echo := some e1, status := some "ok", data := d1 })).steps = [(id1, d1)] ∧
    rejectedOf (processFrame raises ⟨reg, [⟨e1, id1⟩]⟩
      (some { echo := some e1, status := some "ok", data := d1 })).steps = [] ∧
    (processFrame raises ⟨reg, [⟨e1, id1⟩]⟩
      (some { echo := some e1, status := some "ok", data := d1 })).pending = [] := by
  rw [processFrame_no_raise raises _ _ hq, processFrame_no_raise raises _ _ hq]
  simp [runPending, settleStep, Ne.symm hne]

theorem out_of_order_responses_matched_witness :
    ("a" : String) ≠ "b" ∧
    (resolvedOf (processFrame (fun _ => false) ⟨[], [⟨"a", 0⟩, ⟨"b", 1⟩]⟩
      (some { echo := some "b", status := some "ok", data := 20 })).steps = [(1, 20)] ∧
    rejectedOf (processFrame (fun _ => false) ⟨[], [⟨"a", 0⟩, ⟨"b", 1⟩]⟩
      (some { echo := some "b", status := some "ok", data := 20 })).steps = [] ∧
    (processFrame (fun _ => false) ⟨[], [⟨"a", 0⟩, ⟨"b", 1⟩]⟩
      (some { echo := some "b", status := some "ok", data := 20 })).pending = [⟨"a", 0⟩] ∧
    resolvedOf (processFrame (fun _ => false) ⟨[], [⟨"a", 0⟩]⟩
      (some { echo := some "a", status := some "ok", data := 10 })).steps = [(0, 10)] ∧
    rejectedOf (processFrame (fun _ => false) ⟨[], [⟨"a", 0⟩]⟩
      (some { echo := some "a", status := some "ok", data := 10 })).steps = [] ∧
    (processFrame (fun _ => false) ⟨[], [⟨"a", 0⟩]⟩
      (some { echo := some "a", status := some "ok", data := 10 })).pending = []) :=
  ⟨by decide,
    out_of_order_responses_matched (fun _ => false) [] "a" "b" 0 1 10 20
      (by decide) (fun _ => rfl)⟩

/-- Claim C6, counterexample: a matching response whose status is not ok
and whose message field is present but empty rejects the call with the
default text, not with the empty message the response carries, because
the source uses a JS short-circuit or and an empty string is falsy. -/
theorem empty_message_rejects_default_cx :
    rejectedOf (processFrame (fun _ => false) ⟨[], [⟨"1", 3⟩]⟩
      (some { echo := some "1", status := some "failed", message := some "" })).steps =
      [(3, "API call failed")] ∧
    ("API call failed" : String) ≠ "" := by
  decide

/-- Claim C6, amended: a matching response with ok status resolves the
call with the data field; a matching response with any other status
rejects it, carrying the message field of the response when that field is
present and nonempty, and the default text API call failed when the
message field is absent or empty. -/
theorem response_settlement (raises : Callback → Bool) (reg : Registry)
    (ec : String) (cid : Nat) (e : OneBotEvent) (he : e.echo = some ec)
    (hq : ∀ c, raises c = false) :
    (e.status = some "ok" →
      resolvedOf (processFrame raises ⟨reg, [⟨ec, cid⟩]⟩ (some e)).steps =
        [(cid, e.data)] ∧
      rejectedOf (processFrame raises ⟨reg, [⟨ec, cid⟩]⟩ (some e)).steps = []) ∧
    (e.status ≠ some "ok" →
      resolvedOf (processFrame raises ⟨reg, [⟨ec, cid⟩]⟩ (some e)).steps = [] ∧
      rejectedOf (processFrame raises ⟨reg, [⟨ec, cid⟩]⟩ (some e)).steps =
        [(cid, jsOr e.message "API call failed")]) ∧
    (∀ m, e.message = some m → m ≠ "" → jsOr e.message "API call failed" = m) ∧
    ((e.message = none ∨ e.message = some "") →
      jsOr e.message "API call failed" = "API call failed") := by
  rw [processFrame_no_raise raises _ _ hq]
  refine ⟨?_, ?_, ?_, ?_⟩
  · intro hs; simp [runPending, settleStep, he, hs]
  · intro hs; simp [runPending, settleStep, he, hs]
  · intro m hm hme; simp [jsOr, hm, hme]
  · intro hm
    rcases hm with hm | hm <;> simp [jsOr, hm]

theorem response_settlement_witness :
    ({ echo := some "7", status := some "ok", data := 9 } : OneBotEvent).echo =
      some "7" ∧
    resolvedOf (processFrame (fun _ => false) ⟨[], [⟨"7", 2⟩]⟩
      (some { echo := some "7", status := some "ok", data := 9 })).steps = [(2, 9)] :=
  ⟨rfl,
    ((response_settlement (fun _ => false) [] "7" 2
      { echo := some "7", status := some "ok", data := 9 } rfl (fun _ => rfl)).1 rfl).1⟩

/-- Claim C7: dispatch of a well-formed event invokes exactly the
wildcard listeners followed by the listeners registered under the key
built from post_type, a dot, and the secondary discriminator, each group
in registration order and nothing else; the discriminator is the empty
string when the event carries none of the four known fields. -/
theorem dispatch_exact_listeners (raises : Callback → Bool) (conn : Conn)
    (e : OneBotEvent) (hq : ∀ c, raises c = false) :
    invokedOf (processFrame raises conn (some e)).steps =
      ((mapGet conn.registry "*").getD []) ++
      ((mapGet conn.registry (jsField e.post_type ++ "." ++ getEventDetail e)).getD []) ∧
    (e.message_type = none → e.request_type = none → e.notice_type = none →
      e.meta_event_type = none → getEventDetail e = "") := by
  constructor
  · rw [processFrame_no_raise raises conn e hq]
    simp [invokedOf_runPending, eventKey]
  · intro h1 h2 h3 h4; simp [getEventDetail, h1, h2, h3, h4]

theorem dispatch_exact_listeners_witness :
    invokedOf (processFrame (fun _ => false)
      ⟨[("*", [1]), ("message.private", [2])], []⟩
      (some { post_type := some "message", message_type := some "private" })).steps =
      [1, 2] :=
  ((dispatch_exact_listeners (fun _ => false)
    ⟨[("*", [1]), ("message.private", [2])], []⟩
    { post_type := some "message", message_type := some "private" }
    (fun _ => rfl)).1).trans (by decide)

end WsReverse
